/-
Verification of the workflow planning / graph-editing core of vid2workflow.

The definitions below are a shallow embedding of the Python source:
  * backend/main.py           (complete_workflow_with_answers: answer derivation)
  * backend/routes/workflow_chat.py
      (validate_and_fix_connections, call_workflow_edit_function:
       add_node / modify_node / delete_node / get_workflow_connections /
       rebuild_workflow_connections / connect_nodes,
       the tool-call execution loops, the completion flag, the auto-save tail)

Python dicts are embedded as association lists (`List (String × α)`) with
Python's dict semantics: assignment replaces the value at the first
occurrence of the key (keeping its position) or appends a fresh entry at
the end; deletion removes the first occurrence; iteration respects list
order, exactly as Python dicts preserve insertion order.
-/
import Mathlib

set_option maxHeartbeats 1000000
set_option synthInstance.maxSize 2000
set_option synthInstance.maxHeartbeats 2000000

/-! ## Association-list dictionaries (Python `dict` semantics) -/

/-- `d[k]` / `d.get(k)`: value at the first occurrence of key `k`. -/
def dlookup {α : Type} (k : String) : List (String × α) → Option α
  | [] => none
  | p :: rest => if p.1 = k then some p.2 else dlookup k rest

/-- `k in d`. -/
def dcontains {α : Type} (k : String) (d : List (String × α)) : Bool :=
  (dlookup k d).isSome

/-- `d[k] = v`: replace the value at an existing key (keeping its position),
otherwise append the new entry at the end, as Python dict assignment does. -/
def dinsert {α : Type} (k : String) (v : α) : List (String × α) → List (String × α)
  | [] => [(k, v)]
  | p :: rest => if p.1 = k then (k, v) :: rest else p :: dinsert k v rest

/-- `del d[k]` / `d.pop(k, None)`: remove the entry for `k` when present. -/
def dpop {α : Type} (k : String) : List (String × α) → List (String × α)
  | [] => []
  | p :: rest => if p.1 = k then rest else p :: dpop k rest

/-- `d[k] = f(d[k])` applied to an existing key; identity when `k` is absent. -/
def dmodify {α : Type} (k : String) (f : α → α) : List (String × α) → List (String × α)
  | [] => []
  | p :: rest => if p.1 = k then (p.1, f p.2) :: rest else p :: dmodify k f rest

/-- `d.get(k, dflt)`. -/
def dgetD {α : Type} (k : String) (dflt : α) (d : List (String × α)) : α :=
  (dlookup k d).getD dflt

/-- `list(d.keys())`. -/
def dkeys {α : Type} (d : List (String × α)) : List String :=
  d.map Prod.fst

/-! ### Lemmas about the dictionary operations -/

theorem dlookup_eq_none {α : Type} (k : String) (d : List (String × α)) :
    dlookup k d = none ↔ k ∉ dkeys d := by
  induction d with
  | nil => simp [dlookup, dkeys]
  | cons p rest ih =>
    by_cases h : p.1 = k
    · simp [dlookup, dkeys, h]
    · simp [dlookup, dkeys, h, ih, Ne.symm h]

theorem dlookup_some_mem {α : Type} {k : String} {d : List (String × α)} {v : α}
    (h : dlookup k d = some v) : (k, v) ∈ d := by
  induction d with
  | nil => simp [dlookup] at h
  | cons p rest ih =>
    obtain ⟨a, b⟩ := p
    by_cases hk : a = k
    · subst hk
      rw [dlookup, if_pos rfl] at h
      cases h
      exact List.mem_cons_self _ _
    · rw [dlookup, if_neg hk] at h
      exact List.mem_cons_of_mem _ (ih h)

theorem dlookup_isSome_iff {α : Type} (k : String) (d : List (String × α)) :
    (dlookup k d).isSome = true ↔ k ∈ dkeys d := by
  cases h : dlookup k d with
  | none =>
    simp only [Option.isSome_none, Bool.false_eq_true, false_iff]
    exact (dlookup_eq_none k d).mp h
  | some v =>
    simp only [Option.isSome_some, true_iff, dkeys]
    exact List.mem_map.mpr ⟨(k, v), dlookup_some_mem h, rfl⟩

theorem dcontains_iff {α : Type} (k : String) (d : List (String × α)) :
    dcontains k d = true ↔ k ∈ dkeys d := by
  rw [dcontains, dlookup_isSome_iff]

theorem dlookup_dinsert_self {α : Type} (k : String) (v : α) (d : List (String × α)) :
    dlookup k (dinsert k v d) = some v := by
  induction d with
  | nil => simp [dinsert, dlookup]
  | cons p rest ih =>
    by_cases h : p.1 = k
    · simp [dinsert, dlookup, h]
    · simp [dinsert, dlookup, h, ih]

theorem dlookup_dinsert_ne {α : Type} {k' k : String} (v : α) (d : List (String × α))
    (h : k' ≠ k) : dlookup k' (dinsert k v d) = dlookup k' d := by
  induction d with
  | nil => simp [dinsert, dlookup, Ne.symm h]
  | cons p rest ih =>
    by_cases hk : p.1 = k
    · subst hk
      simp [dinsert, dlookup, Ne.symm h]
    · by_cases hk' : p.1 = k'
      · simp [dinsert, dlookup, hk, hk', h]
      · simp [dinsert, dlookup, hk, hk', ih]

theorem dlookup_dpop_ne {α : Type} {k' k : String} (d : List (String × α))
    (h : k' ≠ k) : dlookup k' (dpop k d) = dlookup k' d := by
  induction d with
  | nil => simp [dpop]
  | cons p rest ih =>
    by_cases hk : p.1 = k
    · subst hk
      simp [dpop, dlookup, Ne.symm h]
    · by_cases hk' : p.1 = k'
      · simp [dpop, dlookup, hk, hk', h]
      · simp [dpop, dlookup, hk, hk', ih]

theorem mem_dinsert {α : Type} {q : String × α} {k : String} {v : α}
    {d : List (String × α)} : q ∈ dinsert k v d → q = (k, v) ∨ q ∈ d := by
  induction d with
  | nil =>
    intro h
    simp [dinsert] at h
    exact Or.inl h
  | cons p rest ih =>
    intro h
    by_cases hk : p.1 = k
    · rw [dinsert, if_pos hk] at h
      rcases List.mem_cons.mp h with h | h
      · exact Or.inl h
      · exact Or.inr (List.mem_cons_of_mem _ h)
    · rw [dinsert, if_neg hk] at h
      rcases List.mem_cons.mp h with h | h
      · exact Or.inr (h ▸ List.mem_cons_self _ _)
      · rcases ih h with h | h
        · exact Or.inl h
        · exact Or.inr (List.mem_cons_of_mem _ h)

theorem mem_dpop {α : Type} {q : String × α} {k : String} {d : List (String × α)} :
    q ∈ dpop k d → q ∈ d := by
  induction d with
  | nil =>
    intro h
    simp [dpop] at h
  | cons p rest ih =>
    intro h
    by_cases hk : p.1 = k
    · rw [dpop, if_pos hk] at h
      exact List.mem_cons_of_mem _ h
    · rw [dpop, if_neg hk] at h
      rcases List.mem_cons.mp h with h | h
      · exact h ▸ List.mem_cons_self _ _
      · exact List.mem_cons_of_mem _ (ih h)

theorem mem_dpop_key_ne {α : Type} {q : String × α} {k : String} {d : List (String × α)} :
    (dkeys d).Nodup → q ∈ dpop k d → q.1 ≠ k := by
  induction d with
  | nil =>
    intro _ h
    simp [dpop] at h
  | cons p rest ih =>
    intro hnd h
    rw [dkeys, List.map_cons, List.nodup_cons] at hnd
    by_cases hk : p.1 = k
    · rw [dpop, if_pos hk] at h
      intro hq
      apply hnd.1
      rw [hk, ← hq]
      exact List.mem_map.mpr ⟨q, h, rfl⟩
    · rw [dpop, if_neg hk] at h
      rcases List.mem_cons.mp h with h | h
      · rw [h]
        exact hk
      · exact ih hnd.2 h

theorem mem_dkeys_dinsert {α : Type} {x k : String} {v : α} {d : List (String × α)}
    (h : x ∈ dkeys (dinsert k v d)) : x = k ∨ x ∈ dkeys d := by
  rw [dkeys, List.mem_map] at h
  obtain ⟨q, hq, hx⟩ := h
  rcases mem_dinsert hq with h | h
  · left
    rw [← hx, h]
  · right
    rw [dkeys, List.mem_map]
    exact ⟨q, h, hx⟩

theorem dinsert_not_contains {α : Type} {k : String} (v : α) {d : List (String × α)}
    (h : dcontains k d = false) : dinsert k v d = d ++ [(k, v)] := by
  induction d with
  | nil => simp [dinsert]
  | cons p rest ih =>
    rw [dcontains, dlookup] at h
    by_cases hk : p.1 = k
    · simp [hk] at h
    · rw [if_neg hk] at h
      rw [dinsert, if_neg hk, ih h]
      rfl

theorem dmodify_append_fresh {α : Type} {k : String} (f : α → α) (v : α)
    {d : List (String × α)} (h : k ∉ dkeys d) :
    dmodify k f (d ++ [(k, v)]) = d ++ [(k, f v)] := by
  induction d with
  | nil => simp [dmodify]
  | cons p rest ih =>
    rw [dkeys, List.map_cons, List.mem_cons] at h
    push_neg at h
    rw [List.cons_append, dmodify, if_neg (fun hh => h.1 hh.symm), List.cons_append,
      ih h.2]

theorem dkeys_map_val {α β : Type} (f : α → β) (d : List (String × α)) :
    dkeys (d.map (fun p => (p.1, f p.2))) = dkeys d := by
  induction d with
  | nil => rfl
  | cons p rest ih => simp [dkeys]

theorem dlookup_map_val {α β : Type} (k : String) (f : α → β) (d : List (String × α)) :
    dlookup k (d.map (fun p => (p.1, f p.2))) = (dlookup k d).map f := by
  induction d with
  | nil => rfl
  | cons p rest ih =>
    by_cases h : p.1 = k
    · simp [dlookup, h]
    · simp [dlookup, h, ih]

theorem dkeys_dmodify {α : Type} (k : String) (f : α → α) (d : List (String × α)) :
    dkeys (dmodify k f d) = dkeys d := by
  induction d with
  | nil => rfl
  | cons p rest ih =>
    by_cases h : p.1 = k
    · simp [dmodify, dkeys, h]
    · simp [dmodify, dkeys, h] at ih ⊢
      exact ih

theorem dlookup_dmodify_self {α : Type} (k : String) (f : α → α) (d : List (String × α)) :
    dlookup k (dmodify k f d) = (dlookup k d).map f := by
  induction d with
  | nil => rfl
  | cons p rest ih =>
    by_cases h : p.1 = k
    · simp [dmodify, dlookup, h]
    · simp [dmodify, dlookup, h, ih]

/-! ## Graph data model (n8n workflow JSON, as manipulated by the source) -/

/-- One edge object `{"node": ..., "type": ..., "index": ...}` inside the
connection table. -/
structure Conn where
  node : String
  type : String
  index : Nat
deriving DecidableEq, Repr

/-- The per-source connection data: connection type ↦ list of edge groups. -/
abbrev ConnData := List (String × List (List Conn))

/-- The connection table: source-node reference ↦ connection data. -/
abbrev Connections := List (String × ConnData)

/-- One workflow node. -/
structure Node where
  id : String
  name : String
  type : String
  typeVersion : Rat
  position : Int × Int
  parameters : List (String × String)
deriving DecidableEq, Repr

/-- The compiled workflow graph (`n8n_workflow_data`). -/
structure Graph where
  nodes : List Node
  connections : Connections
deriving DecidableEq, Repr

/-- `key in valid_node_ids or key in valid_node_names`
(workflow_chat.py:733-738): a reference resolves if it is a current node's
id or a current node's name. -/
def resolves (nodes : List Node) (k : String) : Bool :=
  nodes.any (fun n => n.id == k) || nodes.any (fun n => n.name == k)

/-! ## validate_and_fix_connections (workflow_chat.py:724-763) -/

/-- `[c for c in connection_group if target resolves]`
(workflow_chat.py:747-753). -/
def cleanGroup (nodes : List Node) (g : List Conn) : List Conn :=
  g.filter (fun c => resolves nodes c.node)

/-- Per connection type: filter each group, keep only nonempty cleaned groups
(workflow_chat.py:745-755). -/
def cleanGroups (nodes : List Node) (gs : List (List Conn)) : List (List Conn) :=
  gs.filterMap (fun g =>
    let g' := cleanGroup nodes g
    if g'.isEmpty then none else some g')

/-- Per source entry: clean every connection type, keep only types whose
cleaned group list is nonempty (workflow_chat.py:744-757). -/
def cleanConnData (nodes : List Node) (cd : ConnData) : ConnData :=
  cd.filterMap (fun tg =>
    let gs := cleanGroups nodes tg.2
    if gs.isEmpty then none else some (tg.1, gs))

/-- `validate_and_fix_connections` (workflow_chat.py:724-763): drop entries
whose source key does not resolve, drop edges whose target does not resolve,
and drop groups/types/entries left empty. -/
def validateAndFixConnections (nodes : List Node) (conns : Connections) : Connections :=
  conns.filterMap (fun p =>
    if resolves nodes p.1 then
      let cd := cleanConnData nodes p.2
      if cd.isEmpty then none else some (p.1, cd)
    else none)

/-! ### Basic lemmas about the repair pass -/

theorem cleanGroup_idem (nodes : List Node) (g : List Conn) :
    cleanGroup nodes (cleanGroup nodes g) = cleanGroup nodes g := by
  simp [cleanGroup, List.filter_filter]

theorem cleanGroups_cons (nodes : List Node) (g : List Conn) (rest : List (List Conn)) :
    cleanGroups nodes (g :: rest) =
      if (cleanGroup nodes g).isEmpty then cleanGroups nodes rest
      else cleanGroup nodes g :: cleanGroups nodes rest := by
  rw [cleanGroups, List.filterMap_cons]
  by_cases h : (cleanGroup nodes g).isEmpty
  · simp [h, cleanGroups]
  · simp [h, cleanGroups]

theorem cleanGroups_idem (nodes : List Node) (gs : List (List Conn)) :
    cleanGroups nodes (cleanGroups nodes gs) = cleanGroups nodes gs := by
  induction gs with
  | nil => rfl
  | cons g rest ih =>
    rw [cleanGroups_cons]
    by_cases h : (cleanGroup nodes g).isEmpty
    · rw [if_pos h]
      exact ih
    · rw [if_neg h, cleanGroups_cons, cleanGroup_idem, ih, if_neg h]

theorem cleanConnData_cons (nodes : List Node) (tg : String × List (List Conn))
    (rest : ConnData) :
    cleanConnData nodes (tg :: rest) =
      if (cleanGroups nodes tg.2).isEmpty then cleanConnData nodes rest
      else (tg.1, cleanGroups nodes tg.2) :: cleanConnData nodes rest := by
  rw [cleanConnData, List.filterMap_cons]
  by_cases h : (cleanGroups nodes tg.2).isEmpty
  · simp [h, cleanConnData]
  · simp [h, cleanConnData]

theorem cleanConnData_idem (nodes : List Node) (cd : ConnData) :
    cleanConnData nodes (cleanConnData nodes cd) = cleanConnData nodes cd := by
  induction cd with
  | nil => rfl
  | cons tg rest ih =>
    rw [cleanConnData_cons]
    by_cases h : (cleanGroups nodes tg.2).isEmpty
    · rw [if_pos h]
      exact ih
    · rw [if_neg h, cleanConnData_cons]
      simp only [cleanGroups_idem, ih]
      rw [if_neg h]

theorem validateAndFix_cons (nodes : List Node) (p : String × ConnData)
    (rest : Connections) :
    validateAndFixConnections nodes (p :: rest) =
      if resolves nodes p.1 then
        (if (cleanConnData nodes p.2).isEmpty then validateAndFixConnections nodes rest
         else (p.1, cleanConnData nodes p.2) :: validateAndFixConnections nodes rest)
      else validateAndFixConnections nodes rest := by
  rw [validateAndFixConnections, List.filterMap_cons]
  by_cases hr : resolves nodes p.1
  · by_cases h : (cleanConnData nodes p.2).isEmpty
    · simp [hr, h, validateAndFixConnections]
    · simp [hr, h, validateAndFixConnections]
  · simp [hr, validateAndFixConnections]

/-- `validate_and_fix_connections` is idempotent. -/
theorem validateAndFix_idem (nodes : List Node) (conns : Connections) :
    validateAndFixConnections nodes (validateAndFixConnections nodes conns)
      = validateAndFixConnections nodes conns := by
  induction conns with
  | nil => rfl
  | cons p rest ih =>
    rw [validateAndFix_cons]
    by_cases hr : resolves nodes p.1
    · rw [if_pos hr]
      by_cases h : (cleanConnData nodes p.2).isEmpty
      · rw [if_pos h]
        exact ih
      · rw [if_neg h, validateAndFix_cons]
        simp only [cleanConnData_idem, ih]
        rw [if_pos hr, if_neg h]
    · rw [if_neg hr]
      exact ih

/-- After one repair pass every surviving source entry resolves and is
nonempty, every connection-type group list is nonempty, every group is
nonempty, and every edge target resolves. -/
theorem validateAndFix_mem (nodes : List Node) (conns : Connections)
    (p : String × ConnData)
    (hp : p ∈ validateAndFixConnections nodes conns) :
    resolves nodes p.1 = true ∧ p.2 ≠ [] ∧
      ∀ tg ∈ p.2, tg.2 ≠ [] ∧
        ∀ g ∈ tg.2, g ≠ [] ∧ ∀ c ∈ g, resolves nodes c.node = true := by
  rw [validateAndFixConnections, List.mem_filterMap] at hp
  obtain ⟨q, _, hq⟩ := hp
  by_cases hr : resolves nodes q.1
  · simp only [hr, if_pos] at hq
    by_cases h : (cleanConnData nodes q.2).isEmpty
    · simp [h] at hq
    · simp only [h, if_neg, Bool.not_eq_true] at hq
      cases hq
      refine ⟨hr, ?_, ?_⟩
      · intro hnil
        change cleanConnData nodes q.2 = [] at hnil
        rw [hnil] at h
        simp at h
      · intro tg htg
        change tg ∈ cleanConnData nodes q.2 at htg
        rw [cleanConnData, List.mem_filterMap] at htg
        obtain ⟨tg₀, _, htg₀⟩ := htg
        by_cases h2 : (cleanGroups nodes tg₀.2).isEmpty
        · simp [h2] at htg₀
        · simp only [h2, if_neg, Bool.not_eq_true] at htg₀
          cases htg₀
          constructor
          · intro hnil
            change cleanGroups nodes tg₀.2 = [] at hnil
            rw [hnil] at h2
            simp at h2
          · intro g hg
            change g ∈ cleanGroups nodes tg₀.2 at hg
            rw [cleanGroups, List.mem_filterMap] at hg
            obtain ⟨g₀, _, hg₀⟩ := hg
            by_cases h3 : (cleanGroup nodes g₀).isEmpty
            · simp [h3] at hg₀
            · simp only [h3, if_neg, Bool.not_eq_true] at hg₀
              cases hg₀
              constructor
              · intro hnil
                rw [hnil] at h3
                simp at h3
              · intro c hc
                rw [cleanGroup, List.mem_filter] at hc
                exact hc.2
  · simp [hr] at hq

/-- C6: validate-and-repair is a fixed point: running
`validate_and_fix_connections` twice produces the same connection table as
running it once, and after one run no empty edge group, no empty
connection-type list and no empty source entry remains. -/
theorem validate_and_fix_fixed_point (nodes : List Node) (conns : Connections) :
    validateAndFixConnections nodes (validateAndFixConnections nodes conns)
        = validateAndFixConnections nodes conns ∧
      ∀ p ∈ validateAndFixConnections nodes conns,
        p.2 ≠ [] ∧ ∀ tg ∈ p.2, tg.2 ≠ [] ∧ ∀ g ∈ tg.2, g ≠ [] := by
  refine ⟨validateAndFix_idem nodes conns, ?_⟩
  intro p hp
  obtain ⟨-, h2, h3⟩ := validateAndFix_mem nodes conns p hp
  exact ⟨h2, fun tg htg => ⟨(h3 tg htg).1, fun g hg => ((h3 tg htg).2 g hg).1⟩⟩

/-! ## The structural data-model invariant on connection tables

Section 3 of the specification makes it an invariant of the graph data model
that every connection's source and target reference an existing node, and
validate-and-repair removes empty placeholders rather than keeping them.
`TableValid` states that invariant. -/

def TableValid (nodes : List Node) (conns : Connections) : Prop :=
  ∀ p ∈ conns, resolves nodes p.1 = true ∧ p.2 ≠ [] ∧
    ∀ tg ∈ p.2, tg.2 ≠ [] ∧ ∀ g ∈ tg.2, g ≠ [] ∧ ∀ c ∈ g, resolves nodes c.node = true

instance (nodes : List Node) (conns : Connections) : Decidable (TableValid nodes conns) := by
  unfold TableValid
  exact inferInstance

theorem cleanGroup_eq_self (nodes : List Node) (g : List Conn)
    (h : ∀ c ∈ g, resolves nodes c.node = true) : cleanGroup nodes g = g := by
  rw [cleanGroup, List.filter_eq_self]
  exact h

theorem cleanGroups_eq_self (nodes : List Node) (gs : List (List Conn))
    (h : ∀ g ∈ gs, g ≠ [] ∧ ∀ c ∈ g, resolves nodes c.node = true) :
    cleanGroups nodes gs = gs := by
  induction gs with
  | nil => rfl
  | cons g rest ih =>
    obtain ⟨hne, hval⟩ := h g (List.mem_cons_self _ _)
    rw [cleanGroups_cons, cleanGroup_eq_self nodes g hval, if_neg (by simpa using hne),
      ih (fun g' hg' => h g' (List.mem_cons_of_mem _ hg'))]

theorem cleanConnData_eq_self (nodes : List Node) (cd : ConnData)
    (h : ∀ tg ∈ cd, tg.2 ≠ [] ∧ ∀ g ∈ tg.2, g ≠ [] ∧ ∀ c ∈ g, resolves nodes c.node = true) :
    cleanConnData nodes cd = cd := by
  induction cd with
  | nil => rfl
  | cons tg rest ih =>
    obtain ⟨hne, hval⟩ := h tg (List.mem_cons_self _ _)
    rw [cleanConnData_cons, cleanGroups_eq_self nodes tg.2 hval,
      if_neg (by simpa using hne), ih (fun tg' htg' => h tg' (List.mem_cons_of_mem _ htg'))]

/-- On a table satisfying the data-model invariant, validate-and-repair is
the identity. -/
theorem validateAndFix_eq_self (nodes : List Node) (conns : Connections)
    (h : TableValid nodes conns) : validateAndFixConnections nodes conns = conns := by
  induction conns with
  | nil => rfl
  | cons p rest ih =>
    obtain ⟨hres, hne, hval⟩ := h p (List.mem_cons_self _ _)
    rw [validateAndFix_cons, if_pos hres, cleanConnData_eq_self nodes p.2 hval,
      if_neg (by simpa using hne), ih (fun p' hp' => h p' (List.mem_cons_of_mem _ hp'))]

/-! ## modify_node (workflow_chat.py:868-937) -/

/-- `n["name"] == node_identifier or n["id"] == node_identifier`
(workflow_chat.py:886). -/
def nodeMatches (ident : String) (n : Node) : Bool :=
  n.name == ident || n.id == ident

/-- `next((n for n in nodes if ...), None)`. -/
def findNodeRef (nodes : List Node) (ident : String) : Option Node :=
  nodes.find? (nodeMatches ident)

/-- The Python code mutates the node object returned by `next(...)` in place;
here: replace the first node matching the predicate. -/
def updateFirstNode (p : Node → Bool) (f : Node → Node) : List Node → List Node
  | [] => []
  | n :: rest => if p n then f n :: rest else n :: updateFirstNode p f rest

/-- `if conn.get("node") == old_name: conn["node"] = new_name`
(workflow_chat.py:910-911). -/
def retargetConn (oldName newName : String) (c : Conn) : Conn :=
  if c.node = oldName then { c with node := newName } else c

/-- Rewrite every edge target equal to the old name (workflow_chat.py:906-911). -/
def retargetConnData (oldName newName : String) (cd : ConnData) : ConnData :=
  cd.map (fun tg => (tg.1, tg.2.map (fun g => g.map (retargetConn oldName newName))))

/-- `if old_name in connections: connections[new_name] = connections.pop(old_name)`
(workflow_chat.py:902-903). -/
def moveRenamedKey (oldName newName : String) (conns : Connections) : Connections :=
  match dlookup oldName conns with
  | some cd => dinsert newName cd (dpop oldName conns)
  | none => conns

/-- Rename propagation (workflow_chat.py:899-911): move the entry keyed by
the old name to the new name, then rewrite every edge target equal to the
old name. -/
def renameInConnections (oldName newName : String) (conns : Connections) : Connections :=
  (moveRenamedKey oldName newName conns).map
    (fun p => (p.1, retargetConnData oldName newName p.2))

/-- `for key, value in updates.items(): target_node["parameters"][key] = value`
(workflow_chat.py:920-921). -/
def applyParamUpdates (updates : List (String × String))
    (params : List (String × String)) : List (String × String) :=
  updates.foldl (fun ps kv => dinsert kv.1 kv.2 ps) params

/-- The in-place edits applied to the found node: optional rename
(workflow_chat.py:895-896, `if new_name:` is false for the empty string),
then field-level parameter updates (workflow_chat.py:914-921,
`if updates:` is false for the empty mapping). -/
def applyNodeEdits (updates : List (String × String)) (nn : String) (n : Node) : Node :=
  let n₁ := if nn = "" then n else { n with name := nn }
  if updates = [] then n₁
  else { n₁ with parameters := applyParamUpdates updates n₁.parameters }

/-- `modify_node` (workflow_chat.py:868-937): argument guards, dual
name-or-id lookup, rename propagation, field-level parameter update, and the
final validate-and-repair pass. -/
def modifyNode (nodeIdentifier : String) (updates : List (String × String))
    (newName : Option String) (g : Graph) : Except String Graph :=
  if nodeIdentifier = "" then
    .error "node_identifier is required. Use the exact node name from get_workflow_structure."
  else if updates = [] ∧ (newName.getD "") = "" then
    .error "Either updates or new_name is required."
  else
    match findNodeRef g.nodes nodeIdentifier with
    | none => .error ("Node '" ++ nodeIdentifier ++ "' not found")
    | some target =>
      let nn := newName.getD ""
      let nodes₁ := updateFirstNode (nodeMatches nodeIdentifier)
        (applyNodeEdits updates nn) g.nodes
      let conns₁ :=
        if nn = "" then g.connections
        else renameInConnections target.name nn g.connections
      .ok { nodes := nodes₁, connections := validateAndFixConnections nodes₁ conns₁ }

theorem applyNodeEdits_id (updates : List (String × String)) (nn : String) (n : Node) :
    (applyNodeEdits updates nn n).id = n.id := by
  rw [applyNodeEdits]
  by_cases h1 : nn = "" <;> by_cases h2 : updates = [] <;> simp [h1, h2]

theorem applyNodeEdits_name (updates : List (String × String)) {nn : String} (n : Node)
    (h : nn ≠ "") : (applyNodeEdits updates nn n).name = nn := by
  rw [applyNodeEdits]
  by_cases h2 : updates = [] <;> simp [h, h2]

theorem updateFirstNode_decomp (p : Node → Bool) (f : Node → Node) (nodes : List Node)
    (t : Node) (h : nodes.find? p = some t) :
    ∃ pre suf, nodes = pre ++ t :: suf ∧ (∀ n ∈ pre, p n = false) ∧
      updateFirstNode p f nodes = pre ++ f t :: suf := by
  induction nodes with
  | nil => simp [List.find?] at h
  | cons n rest ih =>
    by_cases hp : p n
    · rw [List.find?_cons_of_pos _ hp] at h
      cases h
      exact ⟨[], rest, rfl, by simp, by simp [updateFirstNode, hp]⟩
    · have hp' : p n = false := by simpa using hp
      rw [List.find?_cons_of_neg _ hp] at h
      obtain ⟨pre, suf, h1, h2, h3⟩ := ih h
      refine ⟨n :: pre, suf, by simp [h1], ?_, by simp [updateFirstNode, hp', h3]⟩
      intro m hm
      rcases List.mem_cons.mp hm with hm | hm
      · rw [hm]
        exact hp'
      · exact h2 m hm

theorem resolves_mem_name (nodes : List Node) (n : Node) (h : n ∈ nodes) :
    resolves nodes n.name = true := by
  simp only [resolves, Bool.or_eq_true, List.any_eq_true]
  exact Or.inr ⟨n, h, by simp⟩

theorem resolves_mem_id (nodes : List Node) (n : Node) (h : n ∈ nodes) :
    resolves nodes n.id = true := by
  simp only [resolves, Bool.or_eq_true, List.any_eq_true]
  exact Or.inl ⟨n, h, by simp⟩

/-- A reference other than the renamed node's old name still resolves after
the node's name changed (its id is preserved). -/
theorem resolves_of_ne_name (pre suf : List Node) (t ft : Node)
    (hid : ft.id = t.id) (k : String) (hk : k ≠ t.name)
    (h : resolves (pre ++ t :: suf) k = true) :
    resolves (pre ++ ft :: suf) k = true := by
  simp only [resolves, Bool.or_eq_true, List.any_eq_true, List.mem_append,
    List.mem_cons, beq_iff_eq] at h ⊢
  rcases h with ⟨n, hn, he⟩ | ⟨n, hn, he⟩
  · rcases hn with hn | hn | hn
    · exact Or.inl ⟨n, Or.inl hn, he⟩
    · exact Or.inl ⟨ft, Or.inr (Or.inl rfl), by rw [hid, ← hn, he]⟩
    · exact Or.inl ⟨n, Or.inr (Or.inr hn), he⟩
  · rcases hn with hn | hn | hn
    · exact Or.inr ⟨n, Or.inl hn, he⟩
    · exact absurd (by rw [← hn, he]) hk.symm
    · exact Or.inr ⟨n, Or.inr (Or.inr hn), he⟩

theorem moveRenamedKey_some {oldName : String} (newName : String) {conns : Connections}
    {cd : ConnData} (h : dlookup oldName conns = some cd) :
    moveRenamedKey oldName newName conns = dinsert newName cd (dpop oldName conns) := by
  rw [moveRenamedKey, h]

theorem moveRenamedKey_none {oldName : String} (newName : String) {conns : Connections}
    (h : dlookup oldName conns = none) :
    moveRenamedKey oldName newName conns = conns := by
  rw [moveRenamedKey, h]

theorem retargetConnData_ne_nil {oldName newName : String} {cd : ConnData}
    (h : cd ≠ []) : retargetConnData oldName newName cd ≠ [] := by
  intro hc
  apply h
  simpa [retargetConnData] using hc

/-- Retargeting preserves per-entry validity when the node keeps its id and
takes the new name. -/
theorem retargetConnData_valid (pre suf : List Node) (t ft : Node)
    (hid : ft.id = t.id) (cd : ConnData)
    (hcd : ∀ tg ∈ cd, tg.2 ≠ [] ∧ ∀ g ∈ tg.2, g ≠ [] ∧
      ∀ c ∈ g, resolves (pre ++ t :: suf) c.node = true) :
    ∀ tg ∈ retargetConnData t.name ft.name cd, tg.2 ≠ [] ∧ ∀ g ∈ tg.2, g ≠ [] ∧
      ∀ c ∈ g, resolves (pre ++ ft :: suf) c.node = true := by
  intro tg htg
  rw [retargetConnData, List.mem_map] at htg
  obtain ⟨tg₀, htg₀, rfl⟩ := htg
  obtain ⟨hne, hval⟩ := hcd tg₀ htg₀
  refine ⟨by simpa using hne, ?_⟩
  intro g hg
  have hg' : g ∈ tg₀.2.map (fun gr => gr.map (retargetConn t.name ft.name)) := hg
  obtain ⟨g₀, hg₀, rfl⟩ := List.mem_map.mp hg'
  obtain ⟨hgne, hgval⟩ := hval g₀ hg₀
  refine ⟨by simpa using hgne, ?_⟩
  intro c hc
  obtain ⟨c₀, hc₀, rfl⟩ := List.mem_map.mp hc
  rw [retargetConn]
  by_cases hcn : c₀.node = t.name
  · rw [if_pos hcn]
    exact resolves_mem_name _ ft (by simp)
  · rw [if_neg hcn]
    exact resolves_of_ne_name pre suf t ft hid c₀.node hcn (hgval c₀ hc₀)

/-- After a rename the propagated connection table still satisfies the
data-model invariant against the updated node list. -/
theorem tableValid_rename (pre suf : List Node) (t ft : Node) (conns : Connections)
    (hid : ft.id = t.id)
    (hv : TableValid (pre ++ t :: suf) conns)
    (hnd : (dkeys conns).Nodup) :
    TableValid (pre ++ ft :: suf) (renameInConnections t.name ft.name conns) := by
  intro p hp
  rw [renameInConnections, List.mem_map] at hp
  obtain ⟨q, hq, rfl⟩ := hp
  cases hA : dlookup t.name conns with
  | some cd =>
    rw [moveRenamedKey_some ft.name hA] at hq
    rcases mem_dinsert hq with hq' | hq'
    · subst hq'
      obtain ⟨-, hne, hval⟩ := hv (t.name, cd) (dlookup_some_mem hA)
      exact ⟨resolves_mem_name _ ft (by simp), retargetConnData_ne_nil hne,
        retargetConnData_valid pre suf t ft hid cd hval⟩
    · have hqc : q ∈ conns := mem_dpop hq'
      have hqk : q.1 ≠ t.name := mem_dpop_key_ne hnd hq'
      obtain ⟨hres, hne, hval⟩ := hv q hqc
      exact ⟨resolves_of_ne_name pre suf t ft hid q.1 hqk hres,
        retargetConnData_ne_nil hne,
        retargetConnData_valid pre suf t ft hid q.2 hval⟩
  | none =>
    rw [moveRenamedKey_none ft.name hA] at hq
    have hqk : q.1 ≠ t.name := by
      intro hk
      exact (dlookup_eq_none t.name conns).mp hA
        (hk ▸ List.mem_map.mpr ⟨q, hq, rfl⟩)
    obtain ⟨hres, hne, hval⟩ := hv q hq
    exact ⟨resolves_of_ne_name pre suf t ft hid q.1 hqk hres,
      retargetConnData_ne_nil hne,
      retargetConnData_valid pre suf t ft hid q.2 hval⟩

theorem modifyNode_found (ident : String) (updates : List (String × String))
    (newName : Option String) (g : Graph) (t : Node)
    (hident : ident ≠ "")
    (hguard : ¬(updates = [] ∧ newName.getD "" = ""))
    (hfind : findNodeRef g.nodes ident = some t) :
    modifyNode ident updates newName g =
      .ok { nodes := updateFirstNode (nodeMatches ident)
              (applyNodeEdits updates (newName.getD "")) g.nodes,
            connections := validateAndFixConnections
              (updateFirstNode (nodeMatches ident)
                (applyNodeEdits updates (newName.getD "")) g.nodes)
              (if newName.getD "" = "" then g.connections
               else renameInConnections t.name (newName.getD "") g.connections) } := by
  rw [modifyNode, if_neg hident, if_neg hguard, hfind]

/-- C2: after `modify_node` renames a node from old name `A` to new name `Z`,
every connection-table entry previously keyed by `A` is keyed by `Z`, every
edge that previously targeted `A` now targets `Z`, and no source key or edge
target equals `A`.  The hypotheses are the data-model invariants: the table
has no duplicate source keys (Python dicts cannot) and every reference in
the table resolves to an existing node (spec §3). -/
theorem modify_node_rename_propagation
    (g : Graph) (ident Z : String) (updates : List (String × String))
    (t : Node) (g' : Graph)
    (hfind : findNodeRef g.nodes ident = some t)
    (hZ : Z ≠ "") (hAZ : t.name ≠ Z)
    (hnd : (dkeys g.connections).Nodup)
    (hv : TableValid g.nodes g.connections)
    (hok : modifyNode ident updates (some Z) g = .ok g') :
    (∀ k ∈ dkeys g'.connections, k ≠ t.name) ∧
    (∀ p ∈ g'.connections, ∀ tg ∈ p.2, ∀ gr ∈ tg.2, ∀ c ∈ gr, c.node ≠ t.name) ∧
    (t.name ∈ dkeys g.connections →
      dlookup Z g'.connections
        = (dlookup t.name g.connections).map (retargetConnData t.name Z)) ∧
    (∀ k, k ≠ t.name → k ≠ Z →
      dlookup k g'.connections
        = (dlookup k g.connections).map (retargetConnData t.name Z)) := by
  by_cases hident : ident = ""
  · rw [modifyNode, if_pos hident] at hok
    exact absurd hok (by simp)
  have hguard : ¬(updates = [] ∧ (Option.some Z).getD "" = "") := by
    simp [hZ]
  rw [modifyNode_found ident updates (some Z) g t hident hguard hfind] at hok
  injection hok with hok
  rw [show Option.getD (some Z) "" = Z from rfl] at hok
  obtain ⟨pre, suf, hns, -, hupd⟩ := updateFirstNode_decomp (nodeMatches ident)
    (applyNodeEdits updates Z) g.nodes t hfind
  have hid : (applyNodeEdits updates Z t).id = t.id := applyNodeEdits_id _ _ _
  have hname : (applyNodeEdits updates Z t).name = Z := applyNodeEdits_name _ _ hZ
  have hvalid₁ : TableValid (pre ++ applyNodeEdits updates Z t :: suf)
      (renameInConnections t.name Z g.connections) := by
    have h0 := tableValid_rename pre suf t (applyNodeEdits updates Z t) g.connections hid
      (by rw [← hns]; exact hv) hnd
    rwa [hname] at h0
  have hconns : g'.connections = renameInConnections t.name Z g.connections := by
    rw [← hok]
    show validateAndFixConnections _ _ = _
    rw [if_neg hZ, hupd]
    exact validateAndFix_eq_self _ _ hvalid₁
  refine ⟨?_, ?_, ?_, ?_⟩
  · intro k hk
    rw [hconns, renameInConnections, dkeys_map_val] at hk
    cases hA : dlookup t.name g.connections with
    | some cd =>
      rw [moveRenamedKey_some Z hA] at hk
      rcases mem_dkeys_dinsert hk with hk' | hk'
      · rw [hk']
        exact Ne.symm hAZ
      · rw [dkeys, List.mem_map] at hk'
        obtain ⟨q, hq, rfl⟩ := hk'
        exact mem_dpop_key_ne hnd hq
    | none =>
      rw [moveRenamedKey_none Z hA] at hk
      intro he
      exact (dlookup_eq_none t.name g.connections).mp hA (he ▸ hk)
  · intro p hp tg htg gr hgr c hc
    rw [hconns, renameInConnections, List.mem_map] at hp
    obtain ⟨q, -, rfl⟩ := hp
    have htg' : tg ∈ q.2.map
        (fun tg => (tg.1, tg.2.map (fun g => g.map (retargetConn t.name Z)))) := htg
    obtain ⟨tg₀, -, rfl⟩ := List.mem_map.mp htg'
    have hgr' : gr ∈ tg₀.2.map (fun g => g.map (retargetConn t.name Z)) := hgr
    obtain ⟨g₀, -, rfl⟩ := List.mem_map.mp hgr'
    obtain ⟨c₀, -, rfl⟩ := List.mem_map.mp hc
    rw [retargetConn]
    by_cases hcn : c₀.node = t.name
    · rw [if_pos hcn]
      exact Ne.symm hAZ
    · rw [if_neg hcn]
      exact hcn
  · intro hmem
    obtain ⟨cd, hA⟩ := Option.isSome_iff_exists.mp ((dlookup_isSome_iff _ _).mpr hmem)
    rw [hconns, renameInConnections, dlookup_map_val, moveRenamedKey_some Z hA,
      dlookup_dinsert_self, hA]
  · intro k hkA hkZ
    cases hA : dlookup t.name g.connections with
    | some cd =>
      rw [hconns, renameInConnections, dlookup_map_val, moveRenamedKey_some Z hA,
        dlookup_dinsert_ne _ _ hkZ, dlookup_dpop_ne _ hkA]
    | none =>
      rw [hconns, renameInConnections, dlookup_map_val, moveRenamedKey_none Z hA]

/-! ### Concrete fixtures -/

def wNodeA : Node :=
  { id := "id1", name := "A", type := "n8n-nodes-base.set", typeVersion := 2,
    position := (0, 0), parameters := [] }

def wNodeB : Node :=
  { id := "id2", name := "B", type := "n8n-nodes-base.httpRequest", typeVersion := 2,
    position := (300, 0), parameters := [] }

def wGraphC2 : Graph :=
  { nodes := [wNodeA, wNodeB],
    connections :=
      [("A", [("main", [[⟨"B", "main", 0⟩]])]),
       ("id2", [("main", [[⟨"A", "main", 0⟩]])])] }

def wGraphC2' : Graph :=
  { nodes := [{ wNodeA with name := "Z" }, wNodeB],
    connections :=
      [("id2", [("main", [[⟨"Z", "main", 0⟩]])]),
       ("Z", [("main", [[⟨"B", "main", 0⟩]])])] }

/-- Witness for C2 at a concrete graph: renaming node "A" (found by name) to
"Z" rekeys its entry and rewrites the edge that targeted "A". -/
theorem modify_node_rename_propagation_witness :
    (∀ k ∈ dkeys wGraphC2'.connections, k ≠ wNodeA.name) ∧
    (∀ p ∈ wGraphC2'.connections, ∀ tg ∈ p.2, ∀ gr ∈ tg.2, ∀ c ∈ gr,
      c.node ≠ wNodeA.name) ∧
    (wNodeA.name ∈ dkeys wGraphC2.connections →
      dlookup "Z" wGraphC2'.connections
        = (dlookup wNodeA.name wGraphC2.connections).map
            (retargetConnData wNodeA.name "Z")) ∧
    (∀ k, k ≠ wNodeA.name → k ≠ "Z" →
      dlookup k wGraphC2'.connections
        = (dlookup k wGraphC2.connections).map (retargetConnData wNodeA.name "Z")) :=
  modify_node_rename_propagation wGraphC2 "A" "Z" [] wNodeA wGraphC2'
    (by rfl) (by decide) (by decide) (by decide) (by decide) (by rfl)

/-! ## delete_node (workflow_chat.py:939-980) -/

/-- `nodes.remove(target_node)`: remove the first node matching the lookup
predicate (the object found by `next(...)`). -/
def removeFirstNode (p : Node → Bool) : List Node → List Node
  | [] => []
  | n :: rest => if p n then rest else n :: removeFirstNode p rest

/-- `delete_node` (workflow_chat.py:939-980): find the node by name or id,
remove it from the node list, delete its outbound entry (keyed by its id),
strip its id from every "main" edge group, then validate-and-repair. -/
def deleteNode (nodeIdentifier : String) (g : Graph) : Except String Graph :=
  match findNodeRef g.nodes nodeIdentifier with
  | none => .error ("Node '" ++ nodeIdentifier ++ "' not found")
  | some target =>
    let nodes₁ := removeFirstNode (nodeMatches nodeIdentifier) g.nodes
    let conns₁ := dpop target.id g.connections
    let conns₂ := conns₁.map (fun p => (p.1,
      dmodify "main"
        (fun gs => gs.map (fun gr => gr.filter (fun c => c.node != target.id))) p.2))
    .ok { nodes := nodes₁, connections := validateAndFixConnections nodes₁ conns₂ }

theorem deleteNode_found (ident : String) (g : Graph) (t : Node)
    (hfind : findNodeRef g.nodes ident = some t) :
    deleteNode ident g =
      .ok { nodes := removeFirstNode (nodeMatches ident) g.nodes,
            connections := validateAndFixConnections
              (removeFirstNode (nodeMatches ident) g.nodes)
              ((dpop t.id g.connections).map (fun p => (p.1,
                dmodify "main"
                  (fun gs => gs.map (fun gr => gr.filter (fun c => c.node != t.id)))
                  p.2))) } := by
  rw [deleteNode, hfind]

/-- C3: after `delete_node` removes node `X` and the validate-and-repair pass
runs, no connection-table entry is keyed by `X`'s id or name, and no edge
targets `X`'s id or name.  The hypothesis `hfresh` is the data-model
uniqueness invariant: no surviving node carries the deleted node's id or
name (ids and names are unique indexes, spec §9). -/
theorem delete_node_cleanup
    (g : Graph) (ident : String) (t : Node) (g' : Graph)
    (hfind : findNodeRef g.nodes ident = some t)
    (hok : deleteNode ident g = .ok g')
    (hfresh : ∀ n ∈ g'.nodes, n.id ≠ t.id ∧ n.id ≠ t.name ∧ n.name ≠ t.id ∧ n.name ≠ t.name) :
    (∀ k ∈ dkeys g'.connections, k ≠ t.id ∧ k ≠ t.name) ∧
    (∀ p ∈ g'.connections, ∀ tg ∈ p.2, ∀ gr ∈ tg.2, ∀ c ∈ gr,
      c.node ≠ t.id ∧ c.node ≠ t.name) := by
  rw [deleteNode_found ident g t hfind] at hok
  injection hok with hok
  subst hok
  dsimp only at hfresh ⊢
  have hnores : ∀ k, resolves (removeFirstNode (nodeMatches ident) g.nodes) k = true →
      k ≠ t.id ∧ k ≠ t.name := by
    intro k hk
    simp only [resolves, Bool.or_eq_true, List.any_eq_true, beq_iff_eq] at hk
    rcases hk with ⟨n, hn, rfl⟩ | ⟨n, hn, rfl⟩
    · exact ⟨(hfresh n hn).1, (hfresh n hn).2.1⟩
    · exact ⟨(hfresh n hn).2.2.1, (hfresh n hn).2.2.2⟩
  constructor
  · intro k hk
    rw [dkeys, List.mem_map] at hk
    obtain ⟨p, hp, rfl⟩ := hk
    exact hnores p.1 (validateAndFix_mem _ _ p hp).1
  · intro p hp tg htg gr hgr c hc
    obtain ⟨-, -, h3⟩ := validateAndFix_mem _ _ p hp
    obtain ⟨-, h4⟩ := h3 tg htg
    obtain ⟨-, h5⟩ := h4 gr hgr
    exact hnores c.node (h5 c hc)

def wNodeX : Node :=
  { id := "x1", name := "X", type := "n8n-nodes-base.set", typeVersion := 2,
    position := (0, 0), parameters := [] }

def wNodeY : Node :=
  { id := "y1", name := "Y", type := "n8n-nodes-base.code", typeVersion := 2,
    position := (300, 0), parameters := [] }

def wGraphC3 : Graph :=
  { nodes := [wNodeX, wNodeY],
    connections :=
      [("X", [("main", [[⟨"y1", "main", 0⟩]])]),
       ("y1", [("main", [[⟨"X", "main", 0⟩]])])] }

def wGraphC3' : Graph := { nodes := [wNodeY], connections := [] }

/-- Witness for C3 at a concrete graph: deleting "X" leaves a table with no
key or target referring to "X" by id or by name. -/
theorem delete_node_cleanup_witness :
    (∀ k ∈ dkeys wGraphC3'.connections, k ≠ wNodeX.id ∧ k ≠ wNodeX.name) ∧
    (∀ p ∈ wGraphC3'.connections, ∀ tg ∈ p.2, ∀ gr ∈ tg.2, ∀ c ∈ gr,
      c.node ≠ wNodeX.id ∧ c.node ≠ wNodeX.name) :=
  delete_node_cleanup wGraphC3 "X" wNodeX wGraphC3' (by rfl) (by rfl) (by decide)

/-! ### Lookup through the repair pass -/

theorem mem_validateAndFix_key (nodes : List Node) (conns : Connections)
    (p : String × ConnData) (hp : p ∈ validateAndFixConnections nodes conns) :
    p.1 ∈ dkeys conns := by
  rw [validateAndFixConnections, List.mem_filterMap] at hp
  obtain ⟨q, hq, hq2⟩ := hp
  by_cases hr : resolves nodes q.1
  · simp only [hr, if_pos] at hq2
    by_cases he : (cleanConnData nodes q.2).isEmpty
    · simp [he] at hq2
    · simp only [he, if_neg, Bool.not_eq_true] at hq2
      cases hq2
      exact List.mem_map.mpr ⟨q, hq, rfl⟩
  · simp [hr] at hq2

theorem dlookup_validateAndFix_none (nodes : List Node) (conns : Connections)
    (k : String) (hk : k ∉ dkeys conns) :
    dlookup k (validateAndFixConnections nodes conns) = none := by
  rw [dlookup_eq_none]
  intro hmem
  rw [dkeys, List.mem_map] at hmem
  obtain ⟨p, hp, rfl⟩ := hmem
  exact hk (mem_validateAndFix_key nodes conns p hp)

/-- On a duplicate-free table, looking a key up after the repair pass is
cleaning the looked-up entry. -/
theorem dlookup_validateAndFix (nodes : List Node) (conns : Connections) (k : String)
    (hnd : (dkeys conns).Nodup) :
    dlookup k (validateAndFixConnections nodes conns) =
      (dlookup k conns).bind (fun cd =>
        if resolves nodes k then
          (if (cleanConnData nodes cd).isEmpty then none else some (cleanConnData nodes cd))
        else none) := by
  induction conns with
  | nil => simp [validateAndFixConnections, dlookup]
  | cons p rest ih =>
    rw [dkeys, List.map_cons, List.nodup_cons] at hnd
    rw [validateAndFix_cons]
    by_cases hk : p.1 = k
    · subst hk
      rw [dlookup, if_pos rfl, Option.some_bind]
      by_cases hr : resolves nodes p.1
      · by_cases he : (cleanConnData nodes p.2).isEmpty
        · rw [if_pos hr, if_pos he, if_pos hr, if_pos he,
            dlookup_validateAndFix_none nodes rest p.1 hnd.1]
        · rw [if_pos hr, if_neg he, if_pos hr, if_neg he, dlookup, if_pos rfl]
      · rw [if_neg hr, if_neg hr, dlookup_validateAndFix_none nodes rest p.1 hnd.1]
    · have htail := ih hnd.2
      by_cases hr : resolves nodes p.1
      · by_cases he : (cleanConnData nodes p.2).isEmpty
        · rw [if_pos hr, if_pos he, htail, dlookup, if_neg hk]
        · rw [if_pos hr, if_neg he, dlookup, if_neg hk, htail, dlookup, if_neg hk]
      · rw [if_neg hr, htail, dlookup, if_neg hk]

theorem mem_cleanConnData_key (nodes : List Node) (cd : ConnData)
    (tg : String × List (List Conn)) (htg : tg ∈ cleanConnData nodes cd) :
    tg.1 ∈ dkeys cd := by
  rw [cleanConnData, List.mem_filterMap] at htg
  obtain ⟨tg₀, htg₀, h2⟩ := htg
  by_cases he : (cleanGroups nodes tg₀.2).isEmpty
  · simp [he] at h2
  · simp only [he, if_neg, Bool.not_eq_true] at h2
    cases h2
    exact List.mem_map.mpr ⟨tg₀, htg₀, rfl⟩

theorem dlookup_cleanConnData_none (nodes : List Node) (cd : ConnData)
    (t : String) (ht : t ∉ dkeys cd) :
    dlookup t (cleanConnData nodes cd) = none := by
  rw [dlookup_eq_none]
  intro hmem
  rw [dkeys, List.mem_map] at hmem
  obtain ⟨tg, htg, rfl⟩ := hmem
  exact ht (mem_cleanConnData_key nodes cd tg htg)

theorem dlookup_cleanConnData (nodes : List Node) (cd : ConnData) (t : String)
    (hnd : (dkeys cd).Nodup) :
    dlookup t (cleanConnData nodes cd) =
      (dlookup t cd).bind (fun gs =>
        if (cleanGroups nodes gs).isEmpty then none else some (cleanGroups nodes gs)) := by
  induction cd with
  | nil => simp [cleanConnData, dlookup]
  | cons tg rest ih =>
    rw [dkeys, List.map_cons, List.nodup_cons] at hnd
    rw [cleanConnData_cons]
    by_cases hk : tg.1 = t
    · subst hk
      rw [dlookup, if_pos rfl, Option.some_bind]
      by_cases he : (cleanGroups nodes tg.2).isEmpty
      · rw [if_pos he, if_pos he, dlookup_cleanConnData_none nodes rest tg.1 hnd.1]
      · rw [if_neg he, if_neg he, dlookup, if_pos rfl]
    · have htail := ih hnd.2
      by_cases he : (cleanGroups nodes tg.2).isEmpty
      · rw [if_pos he, htail, dlookup, if_neg hk]
      · rw [if_neg he, dlookup, if_neg hk, htail, dlookup, if_neg hk]

theorem nodup_dkeys_dinsert {α : Type} (k : String) (v : α) (d : List (String × α))
    (hnd : (dkeys d).Nodup) : (dkeys (dinsert k v d)).Nodup := by
  induction d with
  | nil => simp [dinsert, dkeys]
  | cons p rest ih =>
    rw [dkeys, List.map_cons, List.nodup_cons] at hnd
    by_cases hk : p.1 = k
    · subst hk
      rw [dinsert, if_pos rfl]
      rw [dkeys, List.map_cons, List.nodup_cons]
      exact hnd
    · rw [dinsert, if_neg hk, dkeys, List.map_cons, List.nodup_cons]
      refine ⟨?_, ih hnd.2⟩
      intro hmem
      rcases mem_dkeys_dinsert hmem with h | h
      · exact hk h
      · exact hnd.1 h

/-! ## add_node (workflow_chat.py:799-866) -/

/-- Arguments of the `add_node` editing function. -/
structure AddNodeArgs where
  nodeType : String
  name : String
  parameters : List (String × String)
  positionAfter : Option String
deriving Repr

/-- The new node built in workflow_chat.py:810-831: fresh eight-char id
(modelled as the oracle argument `newNodeId`), a type prefixed with the n8n
namespace, the position computed from the last node *before* appending. -/
def mkNewNode (newNodeId : String) (args : AddNodeArgs) (nodes : List Node) : Node :=
  { id := newNodeId,
    name := args.name,
    type := "n8n-nodes-base." ++ args.nodeType,
    typeVersion := if args.nodeType = "httpRequest" then (21 : Rat) / 5 else 2,
    position :=
      match nodes.getLast? with
      | some last => (last.position.1 + 300, last.position.2)
      | none => (250, 300),
    parameters := args.parameters }

/-- `if prev_node_id not in connections: connections[prev_node_id] = {}` then
`connections[prev_node_id]["main"] = [[{"node": ..., "type": "main",
"index": 0}]]` (workflow_chat.py:844-846 and 851-853; also the loop body of
rebuild_workflow_connections, workflow_chat.py:1084-1091 with names). -/
def wireSingleMainEdge (srcKey tgtRef : String) (conns : Connections) : Connections :=
  let conns₁ :=
    match dlookup srcKey conns with
    | some _ => conns
    | none => dinsert srcKey [] conns
  dmodify srcKey (fun cd => dinsert "main" [[⟨tgtRef, "main", 0⟩]] cd) conns₁

/-- The anchor selection of add_node (workflow_chat.py:836-853): a truthy
`position_after` resolved by name-or-id over the node list *after* the
append wins; otherwise, when more than one node exists after the append,
`nodes[-2]` — the previously-last node — is the anchor. -/
def chooseAnchorWiring (newNodeId pa : String) (nodes nodes₁ : List Node)
    (conns : Connections) : Connections :=
  if pa ≠ "" then
    match findNodeRef nodes₁ pa with
    | some prev => wireSingleMainEdge prev.id newNodeId conns
    | none => conns
  else if nodes₁.length > 1 then
    match nodes.getLast? with
    | some prev => wireSingleMainEdge prev.id newNodeId conns
    | none => conns
  else conns

/-- `add_node` (workflow_chat.py:799-866): append the new node, wire it after
the anchor, validate-and-repair. -/
def addNode (newNodeId : String) (args : AddNodeArgs) (g : Graph) : Except String Graph :=
  let newNode := mkNewNode newNodeId args g.nodes
  let nodes₁ := g.nodes ++ [newNode]
  let conns₁ := chooseAnchorWiring newNodeId (args.positionAfter.getD "")
    g.nodes nodes₁ g.connections
  .ok { nodes := nodes₁, connections := validateAndFixConnections nodes₁ conns₁ }

theorem chooseAnchorWiring_position_after {pa : String} (newNodeId : String)
    {nodes nodes₁ : List Node} {prev : Node} (conns : Connections)
    (hpa : pa ≠ "") (hfind : findNodeRef nodes₁ pa = some prev) :
    chooseAnchorWiring newNodeId pa nodes nodes₁ conns
      = wireSingleMainEdge prev.id newNodeId conns := by
  rw [chooseAnchorWiring, if_pos hpa, hfind]

theorem chooseAnchorWiring_append {pa : String} (newNodeId : String)
    {nodes nodes₁ : List Node} {prev : Node} (conns : Connections)
    (hpa : pa = "") (hlen : nodes₁.length > 1) (hlast : nodes.getLast? = some prev) :
    chooseAnchorWiring newNodeId pa nodes nodes₁ conns
      = wireSingleMainEdge prev.id newNodeId conns := by
  rw [chooseAnchorWiring, hpa, if_neg (by simp), if_pos hlen, hlast]

theorem wireSingleMainEdge_lookup (srcKey tgtRef : String) (conns : Connections) :
    dlookup srcKey (wireSingleMainEdge srcKey tgtRef conns)
      = some (dinsert "main" [[⟨tgtRef, "main", 0⟩]] ((dlookup srcKey conns).getD [])) := by
  cases h : dlookup srcKey conns with
  | some cd =>
    rw [wireSingleMainEdge, h, dlookup_dmodify_self, h]
    rfl
  | none =>
    rw [wireSingleMainEdge, h, dlookup_dmodify_self, dlookup_dinsert_self]
    rfl

theorem wireSingleMainEdge_nodup (srcKey tgtRef : String) (conns : Connections)
    (hnd : (dkeys conns).Nodup) :
    (dkeys (wireSingleMainEdge srcKey tgtRef conns)).Nodup := by
  cases h : dlookup srcKey conns with
  | some cd =>
    rw [wireSingleMainEdge, h, dkeys_dmodify]
    exact hnd
  | none =>
    rw [wireSingleMainEdge, h, dkeys_dmodify]
    exact nodup_dkeys_dinsert _ _ _ hnd

/-- Wiring an anchor to a resolving target and repairing leaves exactly the
single fresh edge on the anchor's "main" output. -/
theorem wire_then_validate_main
    (nodes₁ : List Node) (conns : Connections) (prev : Node) (newNodeId : String)
    (hnd : (dkeys conns).Nodup)
    (hinner : ∀ p ∈ conns, (dkeys p.2).Nodup)
    (hprev : prev ∈ nodes₁)
    (hnew : resolves nodes₁ newNodeId = true) :
    (dlookup prev.id (validateAndFixConnections nodes₁
        (wireSingleMainEdge prev.id newNodeId conns))).bind (dlookup "main")
      = some [[⟨newNodeId, "main", 0⟩]] := by
  have hndw := wireSingleMainEdge_nodup prev.id newNodeId conns hnd
  have hlk := wireSingleMainEdge_lookup prev.id newNodeId conns
  have hres : resolves nodes₁ prev.id = true := resolves_mem_id nodes₁ prev hprev
  set cd₀ : ConnData := (dlookup prev.id conns).getD [] with hcd₀
  have hcd₀nd : (dkeys cd₀).Nodup := by
    cases h : dlookup prev.id conns with
    | some cd =>
      rw [hcd₀, h]
      exact hinner (prev.id, cd) (dlookup_some_mem h)
    | none =>
      rw [hcd₀, h]
      simp [dkeys]
  set cdX : ConnData := dinsert "main" [[⟨newNodeId, "main", 0⟩]] cd₀ with hcdX
  have hcdXnd : (dkeys cdX).Nodup := nodup_dkeys_dinsert _ _ _ hcd₀nd
  have hgroups : cleanGroups nodes₁ [[⟨newNodeId, "main", 0⟩]]
      = [[⟨newNodeId, "main", 0⟩]] := by
    rw [cleanGroups_eq_self]
    intro g hg
    rw [List.mem_singleton] at hg
    subst hg
    refine ⟨by simp, ?_⟩
    intro c hc
    rw [List.mem_singleton] at hc
    subst hc
    exact hnew
  have hmain : dlookup "main" (cleanConnData nodes₁ cdX)
      = some [[⟨newNodeId, "main", 0⟩]] := by
    rw [dlookup_cleanConnData nodes₁ cdX "main" hcdXnd, hcdX, dlookup_dinsert_self,
      Option.some_bind, hgroups, if_neg (by simp)]
  have hCDne : cleanConnData nodes₁ cdX ≠ [] := by
    intro h
    rw [h] at hmain
    simp [dlookup] at hmain
  rw [dlookup_validateAndFix nodes₁ _ prev.id hndw, hlk, Option.some_bind,
    if_pos hres, if_neg (by simpa using hCDne), Option.some_bind]
  exact hmain

/-- C10: in `add_node`, wiring the new node after an anchor replaces the
anchor's entire "main" output connection list with the single fresh edge:
whatever edges the anchor previously had on "main" are discarded.  The two
conjuncts cover the two anchor selections: an explicit resolving
`position_after`, and the previously-last node when `position_after` is
absent and the grown graph has more than one node. -/
theorem add_node_wiring_replaces_main
    (newNodeId : String) (args : AddNodeArgs) (g g' : Graph)
    (hnd : (dkeys g.connections).Nodup)
    (hinner : ∀ p ∈ g.connections, (dkeys p.2).Nodup)
    (hok : addNode newNodeId args g = .ok g') :
    (∀ pa prev, args.positionAfter = some pa → pa ≠ "" →
      findNodeRef (g.nodes ++ [mkNewNode newNodeId args g.nodes]) pa = some prev →
      (dlookup prev.id g'.connections).bind (dlookup "main")
        = some [[⟨newNodeId, "main", 0⟩]]) ∧
    (args.positionAfter.getD "" = "" → ∀ prev, g.nodes.getLast? = some prev →
      (dlookup prev.id g'.connections).bind (dlookup "main")
        = some [[⟨newNodeId, "main", 0⟩]]) := by
  rw [addNode] at hok
  injection hok with hok
  subst hok
  dsimp only
  have hnew : resolves (g.nodes ++ [mkNewNode newNodeId args g.nodes]) newNodeId = true :=
    resolves_mem_id _ (mkNewNode newNodeId args g.nodes) (by simp)
  constructor
  · intro pa prev hpa hpane hfind
    rw [hpa, Option.getD_some,
      chooseAnchorWiring_position_after newNodeId g.connections hpane hfind]
    exact wire_then_validate_main _ g.connections prev newNodeId hnd hinner
      (List.mem_of_find?_eq_some hfind) hnew
  · intro hpa prev hlast
    have hne : g.nodes ≠ [] := by
      intro h
      rw [h] at hlast
      simp at hlast
    have hlen : (g.nodes ++ [mkNewNode newNodeId args g.nodes]).length > 1 := by
      simp only [List.length_append, List.length_singleton]
      have := List.length_pos.mpr hne
      omega
    have hprevmem : prev ∈ g.nodes := by
      obtain ⟨h, heq⟩ := List.mem_getLast?_eq_getLast hlast
      rw [heq]
      exact List.getLast_mem h
    rw [chooseAnchorWiring_append newNodeId g.connections hpa hlen hlast]
    exact wire_then_validate_main _ g.connections prev newNodeId hnd hinner
      (List.mem_append_left _ hprevmem) hnew

def wNodeNew : Node :=
  { id := "n3", name := "New", type := "n8n-nodes-base.code", typeVersion := 2,
    position := (600, 0), parameters := [] }

def wArgsC10 : AddNodeArgs :=
  { nodeType := "code", name := "New", parameters := [], positionAfter := none }

def wGraphC10 : Graph :=
  { nodes := [wNodeA, wNodeB],
    connections :=
      [("id2", [("main", [[⟨"id1", "main", 0⟩], [⟨"id1", "main", 1⟩]]),
                ("other", [[⟨"id1", "x", 0⟩]])])] }

def wGraphC10' : Graph :=
  { nodes := [wNodeA, wNodeB, wNodeNew],
    connections :=
      [("id2", [("main", [[⟨"n3", "main", 0⟩]]),
                ("other", [[⟨"id1", "x", 0⟩]])])] }

/-- Witness for C10 at a concrete graph: the previously-last node "id2" had
two "main" edge groups before add_node; afterwards its "main" list is
exactly the single edge to the new node. -/
theorem add_node_wiring_replaces_main_witness :
    (dlookup "id2" wGraphC10'.connections).bind (dlookup "main")
      = some [[⟨"n3", "main", 0⟩]] :=
  (add_node_wiring_replaces_main "n3" wArgsC10 wGraphC10 wGraphC10'
    (by decide) (by decide) (by rfl)).2 rfl wNodeB rfl

/-! ## rebuild_workflow_connections (workflow_chat.py:1055-1104) -/

/-- The rebuild loop (workflow_chat.py:1074-1091): for every adjacent pair in
the current node order, key by the source node's *name* and point a single
"main" edge at the target node's *name*. -/
def rebuildLoop : List Node → Connections → Connections
  | a :: b :: rest, conns => rebuildLoop (b :: rest) (wireSingleMainEdge a.name b.name conns)
  | _, conns => conns

/-- `rebuild_workflow_connections` (workflow_chat.py:1055-1104): error when
there are no nodes, otherwise discard the entire connection table and run
the sequential rebuild loop. -/
def rebuildWorkflowConnections (g : Graph) : Except String Graph :=
  if g.nodes = [] then .error "No nodes to connect"
  else .ok { g with connections := rebuildLoop g.nodes [] }

/-- The chain the specification describes: for each i in [0, N-2] an entry
keyed by node i's name whose single "main" edge targets node i+1's name at
input index 0, and nothing else. -/
def specSequentialChain : List Node → Connections
  | a :: b :: rest => (a.name, [("main", [[⟨b.name, "main", 0⟩]])]) :: specSequentialChain (b :: rest)
  | _ => []

theorem wireSingleMainEdge_fresh (srcKey tgtRef : String) (conns : Connections)
    (h : srcKey ∉ dkeys conns) :
    wireSingleMainEdge srcKey tgtRef conns
      = conns ++ [(srcKey, [("main", [[⟨tgtRef, "main", 0⟩]])])] := by
  have hnone : dlookup srcKey conns = none := (dlookup_eq_none _ _).mpr h
  have hcont : dcontains srcKey conns = false := by
    rw [dcontains, hnone]
    rfl
  rw [wireSingleMainEdge, hnone, dinsert_not_contains _ hcont, dmodify_append_fresh _ _ h]
  rfl

theorem rebuildLoop_eq_chain (nodes : List Node) :
    ∀ acc : Connections, (∀ n ∈ nodes, n.name ∉ dkeys acc) →
      (nodes.map Node.name).Nodup →
      rebuildLoop nodes acc = acc ++ specSequentialChain nodes := by
  induction nodes with
  | nil =>
    intro acc _ _
    simp [rebuildLoop, specSequentialChain]
  | cons a tail ih =>
    intro acc hacc hnd
    cases tail with
    | nil => simp [rebuildLoop, specSequentialChain]
    | cons b rest =>
      show rebuildLoop (b :: rest) (wireSingleMainEdge a.name b.name acc)
        = acc ++ specSequentialChain (a :: b :: rest)
      rw [List.map_cons, List.nodup_cons] at hnd
      have hstep := wireSingleMainEdge_fresh a.name b.name acc
        (hacc a (List.mem_cons_self _ _))
      rw [hstep, ih _ ?_ hnd.2]
      · show _ = acc ++ ((a.name, [("main", [[⟨b.name, "main", 0⟩]])])
          :: specSequentialChain (b :: rest))
        rw [List.append_assoc]
        rfl
      · intro n hn
        rw [dkeys, List.map_append, List.mem_append]
        rintro (hmem | hmem)
        · exact hacc n (List.mem_cons_of_mem _ hn) hmem
        · simp only [List.map_cons, List.map_nil, List.mem_singleton] at hmem
          exact hnd.1 (hmem ▸ List.mem_map.mpr ⟨n, hn, rfl⟩)

theorem specSequentialChain_length (nodes : List Node) :
    (specSequentialChain nodes).length = nodes.length - 1 := by
  induction nodes with
  | nil => rfl
  | cons a tail ih =>
    cases tail with
    | nil => rfl
    | cons b rest =>
      show ((a.name, _) :: specSequentialChain (b :: rest)).length = _
      rw [List.length_cons, ih]
      simp

/-- C8: on a graph with N ≥ 1 nodes whose names are pairwise distinct (names
are a unique index in the data model, spec §9), rebuild discards the old
table and produces exactly the N-1-entry sequential name-keyed chain. -/
theorem rebuild_connections_sequential_chain (g g' : Graph)
    (hnames : (g.nodes.map Node.name).Nodup)
    (hok : rebuildWorkflowConnections g = .ok g') :
    g'.connections = specSequentialChain g.nodes ∧
      g'.connections.length = g.nodes.length - 1 := by
  rw [rebuildWorkflowConnections] at hok
  by_cases hne : g.nodes = []
  · rw [if_pos hne] at hok
    exact absurd hok (by simp)
  · rw [if_neg hne] at hok
    injection hok with hok
    subst hok
    dsimp only
    have := rebuildLoop_eq_chain g.nodes [] (by simp [dkeys]) hnames
    rw [List.nil_append] at this
    exact ⟨this, by rw [this, specSequentialChain_length]⟩

def wNodeC : Node :=
  { id := "id3", name := "C", type := "n8n-nodes-base.code", typeVersion := 2,
    position := (600, 0), parameters := [] }

def wGraphC8 : Graph :=
  { nodes := [wNodeA, wNodeB, wNodeC],
    connections := [("stale", [("main", [[⟨"ghost", "main", 0⟩]])])] }

def wGraphC8' : Graph :=
  { nodes := [wNodeA, wNodeB, wNodeC],
    connections :=
      [("A", [("main", [[⟨"B", "main", 0⟩]])]),
       ("B", [("main", [[⟨"C", "main", 0⟩]])])] }

/-- Witness for C8 at a concrete graph: three distinctly named nodes yield
exactly the two-entry name-keyed chain, the stale table being discarded. -/
theorem rebuild_connections_sequential_chain_witness :
    wGraphC8'.connections = specSequentialChain wGraphC8.nodes ∧
      wGraphC8'.connections.length = wGraphC8.nodes.length - 1 :=
  rebuild_connections_sequential_chain wGraphC8 wGraphC8' (by decide) (by rfl)

/-! ## Answer derivation in complete_workflow_with_answers (main.py:599-663) -/

theorem nodup_dkeys_dpop {α : Type} (k : String) (d : List (String × α))
    (hnd : (dkeys d).Nodup) : (dkeys (dpop k d)).Nodup := by
  induction d with
  | nil => simp [dpop, dkeys]
  | cons p rest ih =>
    rw [dkeys, List.map_cons, List.nodup_cons] at hnd
    by_cases hk : p.1 = k
    · rw [dpop, if_pos hk]
      exact hnd.2
    · rw [dpop, if_neg hk, dkeys, List.map_cons, List.nodup_cons]
      refine ⟨?_, ih hnd.2⟩
      intro hmem
      rw [List.mem_map] at hmem
      obtain ⟨q, hq, he⟩ := hmem
      exact hnd.1 (he ▸ List.mem_map.mpr ⟨q, mem_dpop hq, rfl⟩)

theorem dlookup_dpop_self {α : Type} (k : String) (d : List (String × α))
    (hnd : (dkeys d).Nodup) : dlookup k (dpop k d) = none := by
  induction d with
  | nil => simp [dpop, dlookup]
  | cons p rest ih =>
    rw [dkeys, List.map_cons, List.nodup_cons] at hnd
    by_cases hk : p.1 = k
    · rw [dpop, if_pos hk, dlookup_eq_none]
      intro hmem
      exact hnd.1 (hk ▸ hmem)
    · rw [dpop, if_neg hk, dlookup, if_neg hk]
      exact ih hnd.2

/-- The specific-column branch (main.py:646-662): build
`"{column}{start_row}:{column}{end_row}"`, or the open-ended
`"{column}{start_row}:{column}"` when `end_row` is falsy; store it under
`range`; pop `start_row` and `end_row`.  The source deliberately keeps
`column` ("Keep column info for reference but remove the temporary
fields"). -/
def deriveRangeSpecificColumn (data : List (String × String)) : List (String × String) :=
  let col := dgetD "column" "" data
  let start := dgetD "start_row" "2" data
  let endv := dgetD "end_row" "" data
  let rangeStr :=
    if endv ≠ "" then col ++ start ++ ":" ++ col ++ endv
    else col ++ start ++ ":" ++ col
  dpop "end_row" (dpop "start_row" (dinsert "range" rangeStr data))

/-- The per-entry dispatch of the derivation loop (main.py:600-662).  The
smart-search branch (main.py:603-644) performs an external HTTP call to the
smart-search endpoint; it is abstracted as the `smartSearchBranch` oracle
argument, which none of the verified properties depend on (they exclude
that branch by hypothesis). -/
def processCollectedEntry
    (smartSearchBranch : List (String × String) → List (String × String))
    (data : List (String × String)) : List (String × String) :=
  if dgetD "search_mode" "specific_column" data = "smart_search"
      ∧ dcontains "data_type" data = true then
    smartSearchBranch data
  else if dcontains "column" data = true ∧ dcontains "start_row" data = true then
    deriveRangeSpecificColumn data
  else data

/-- C1 counterexample: on the round-trip entry
`{column: "C", start_row: "2", end_row: "6"}` the derivation produces
`range = "C2:C6"` and removes `start_row` and `end_row`, but the `column`
key remains — refuting the claim that none of the three keys survives. -/
theorem range_derivation_keeps_column_cex :
    processCollectedEntry id [("column", "C"), ("start_row", "2"), ("end_row", "6")]
        = [("column", "C"), ("range", "C2:C6")] ∧
      dlookup "column"
        (processCollectedEntry id [("column", "C"), ("start_row", "2"), ("end_row", "6")])
        = some "C" := by
  constructor <;> rfl

/-- C1 amended: for a collected-answer entry with `column` and `start_row`
that is not in smart-search mode, the derivation sets `range` to
`"{column}{start_row}:{column}{end_row}"` (open-ended without the final
`end_row` part when it is absent or empty) and removes `start_row` and
`end_row`, while the `column` key is retained unchanged. -/
theorem range_derivation_amended
    (smartSearchBranch : List (String × String) → List (String × String))
    (data : List (String × String)) (col start : String)
    (hnd : (dkeys data).Nodup)
    (hmode : ¬(dgetD "search_mode" "specific_column" data = "smart_search"
      ∧ dcontains "data_type" data = true))
    (hcol : dlookup "column" data = some col)
    (hstart : dlookup "start_row" data = some start) :
    dlookup "range" (processCollectedEntry smartSearchBranch data)
        = some (if dgetD "end_row" "" data ≠ ""
            then col ++ start ++ ":" ++ col ++ dgetD "end_row" "" data
            else col ++ start ++ ":" ++ col) ∧
      dlookup "start_row" (processCollectedEntry smartSearchBranch data) = none ∧
      dlookup "end_row" (processCollectedEntry smartSearchBranch data) = none ∧
      dlookup "column" (processCollectedEntry smartSearchBranch data) = some col := by
  have hbranch : processCollectedEntry smartSearchBranch data
      = deriveRangeSpecificColumn data := by
    rw [processCollectedEntry, if_neg hmode, if_pos]
    constructor
    · rw [dcontains, hcol]
      rfl
    · rw [dcontains, hstart]
      rfl
  have hcolD : dgetD "column" "" data = col := by
    rw [dgetD, hcol]
    rfl
  have hstartD : dgetD "start_row" "2" data = start := by
    rw [dgetD, hstart]
    rfl
  have hnd₁ : (dkeys (dinsert "range"
      (if dgetD "end_row" "" data ≠ ""
       then dgetD "column" "" data ++ dgetD "start_row" "2" data ++ ":"
          ++ dgetD "column" "" data ++ dgetD "end_row" "" data
       else dgetD "column" "" data ++ dgetD "start_row" "2" data ++ ":"
          ++ dgetD "column" "" data) data)).Nodup :=
    nodup_dkeys_dinsert _ _ _ hnd
  rw [hbranch, deriveRangeSpecificColumn]
  refine ⟨?_, ?_, ?_, ?_⟩
  · rw [dlookup_dpop_ne _ (by decide), dlookup_dpop_ne _ (by decide),
      dlookup_dinsert_self, hcolD, hstartD]
  · rw [dlookup_dpop_ne _ (by decide), dlookup_dpop_self _ _ hnd₁]
  · rw [dlookup_dpop_self _ _ (nodup_dkeys_dpop _ _ hnd₁)]
  · rw [dlookup_dpop_ne _ (by decide), dlookup_dpop_ne _ (by decide),
      dlookup_dinsert_ne _ _ (by decide), hcol]

/-- Witness for the amended C1 at the round-trip entry of the spec. -/
theorem range_derivation_amended_witness :
    dlookup "range" (processCollectedEntry id
        [("column", "C"), ("start_row", "2"), ("end_row", "6")])
        = some (if dgetD "end_row" ""
              [("column", "C"), ("start_row", "2"), ("end_row", "6")] ≠ ""
            then "C" ++ "2" ++ ":" ++ "C" ++ dgetD "end_row" ""
              [("column", "C"), ("start_row", "2"), ("end_row", "6")]
            else "C" ++ "2" ++ ":" ++ "C") ∧
      dlookup "start_row" (processCollectedEntry id
        [("column", "C"), ("start_row", "2"), ("end_row", "6")]) = none ∧
      dlookup "end_row" (processCollectedEntry id
        [("column", "C"), ("start_row", "2"), ("end_row", "6")]) = none ∧
      dlookup "column" (processCollectedEntry id
        [("column", "C"), ("start_row", "2"), ("end_row", "6")]) = some "C" :=
  range_derivation_amended id
    [("column", "C"), ("start_row", "2"), ("end_row", "6")] "C" "2"
    (by decide) (by decide) (by rfl) (by rfl)

/-! ## Completion signal of workflow_chat (workflow_chat.py:374-471) -/

def listStartsWith : List Char → List Char → Bool
  | [], _ => true
  | _ :: _, [] => false
  | a :: as, b :: bs => a == b && listStartsWith as bs

def listHasSub (needle : List Char) : List Char → Bool
  | [] => listStartsWith needle []
  | c :: rest => listStartsWith needle (c :: rest) || listHasSub needle rest

/-- Python `needle in hay` on strings. -/
def strContainsSub (hay needle : String) : Bool :=
  listHasSub needle.toList hay.toList

/-- Python `str.lower()` (ASCII case folding suffices for the fixed
heuristic phrases). -/
def pyLower (s : String) : String :=
  String.mk (s.toList.map Char.toLower)

/-- The textual completion heuristic (workflow_chat.py:438 and 461):
`"creating your workflow now" in final_message.lower() or
"all the information" in final_message.lower()`. -/
def textualCompletionHeuristic (msg : String) : Bool :=
  strContainsSub (pyLower msg) "creating your workflow now"
    || strContainsSub (pyLower msg) "all the information"

/-- The loop of workflow_chat.py:382-409: `is_complete` starts false and is
set when a `mark_workflow_complete` invocation is seen. -/
def anyMarkComplete (names : List String) : Bool :=
  names.foldl (fun acc n => if n = "mark_workflow_complete" then true else acc) false

/-- The returned `complete` flag (workflow_chat.py:437-438, 454): the
heuristic is consulted only when `is_complete` is still false. -/
def computeTurnComplete (names : List String) (msg : String) : Bool :=
  if anyMarkComplete names = true then true
  else textualCompletionHeuristic msg

theorem anyMarkComplete_go (names : List String) :
    ∀ b : Bool,
      names.foldl (fun acc n => if n = "mark_workflow_complete" then true else acc) b
        = (b || names.any (fun n => n == "mark_workflow_complete")) := by
  induction names with
  | nil =>
    intro b
    simp
  | cons n rest ih =>
    intro b
    rw [List.foldl_cons]
    by_cases h : n = "mark_workflow_complete"
    · rw [if_pos h, ih true, List.any_cons]
      simp [h]
    · rw [if_neg h, ih b, List.any_cons]
      have hb : (n == "mark_workflow_complete") = false := by
        rw [beq_eq_false_iff_ne]
        exact h
      rw [hb, Bool.false_or]

theorem anyMarkComplete_iff (names : List String) :
    anyMarkComplete names = true ↔ "mark_workflow_complete" ∈ names := by
  rw [anyMarkComplete, anyMarkComplete_go names false, Bool.false_or, List.any_eq_true]
  constructor
  · rintro ⟨n, hn, he⟩
    rw [beq_iff_eq] at he
    exact he ▸ hn
  · intro h
    exact ⟨_, h, by simp⟩

/-- C5: invoking `mark_workflow_complete` is authoritative — the turn's
`complete` flag is true regardless of the final message — and the textual
heuristic is consulted exactly when the capability was not invoked. -/
theorem mark_complete_authoritative (names : List String) (msg : String) :
    ("mark_workflow_complete" ∈ names → computeTurnComplete names msg = true) ∧
    ("mark_workflow_complete" ∉ names →
      computeTurnComplete names msg = textualCompletionHeuristic msg) := by
  constructor
  · intro hmem
    rw [computeTurnComplete, if_pos ((anyMarkComplete_iff names).mpr hmem)]
  · intro hmem
    rw [computeTurnComplete,
      if_neg (fun h => hmem ((anyMarkComplete_iff names).mp h))]

/-- Witness for C5: the explicit signal wins over a non-completion message,
and without it the flag equals the heuristic. -/
theorem mark_complete_authoritative_witness :
    computeTurnComplete ["save_workflow_parameter", "mark_workflow_complete"]
        "still collecting data" = true ∧
    computeTurnComplete ["save_workflow_parameter"] "Creating your workflow now..."
        = textualCompletionHeuristic "Creating your workflow now..." :=
  ⟨(mark_complete_authoritative
      ["save_workflow_parameter", "mark_workflow_complete"] "still collecting data").1
      (by decide),
   (mark_complete_authoritative
      ["save_workflow_parameter"] "Creating your workflow now...").2 (by decide)⟩

/-! ## The per-turn tool-call execution loop
(workflow_chat.py:1417-1442; the loop at workflow_chat.py:377-394 has the
same shape) -/

/-- One model-requested capability invocation: a function name and the raw
JSON text of its arguments. -/
structure ToolCall where
  name : String
  argumentsRaw : String
deriving DecidableEq, Repr

/-- The execution loop over a turn's tool calls:
`arguments = json.loads(tool_call.function.arguments)` runs before any
per-invocation error handling, so a parse failure (modelled by `parseArgs`
returning `none`) raises out of the loop and aborts the turn — the
remaining invocations are not executed and the endpoint's outer handler
turns the exception into an HTTP 500.  The executed capability
(`call_workflow_edit_function` / `call_function`) catches its own
exceptions and returns error payloads as ordinary result values, so `exec`
is total. -/
def runToolCalls {A R : Type} (parseArgs : String → Option A)
    (exec : String → A → R) : List ToolCall → Except String (List R)
  | [] => .ok []
  | c :: rest =>
    match parseArgs c.argumentsRaw with
    | none => .error ("Unparsable tool arguments: " ++ c.argumentsRaw)
    | some a =>
      match runToolCalls parseArgs exec rest with
      | .ok rs => .ok (exec c.name a :: rs)
      | .error e => .error e

def parseC4 : String → Option Unit := fun s => if s = "null" then some () else none

def execC4 : String → Unit → String := fun n _ => n

def wToolCallsC4 : List ToolCall :=
  [⟨"get_workflow_structure", "null"⟩, ⟨"add_node", "not json"⟩,
   ⟨"delete_node", "null"⟩]

/-- C4 counterexample: a turn with a well-formed invocation, a malformed one
and another well-formed one aborts as a whole with the parse error — it does
not continue past the malformed invocation with a per-invocation error
result. -/
theorem tool_call_parse_failure_aborts_turn_cex :
    runToolCalls parseC4 execC4 wToolCallsC4
      = .error "Unparsable tool arguments: not json" := by
  rfl

/-- C4 amended: an invocation whose arguments fail to parse aborts the whole
turn (the error propagates and the remaining invocations are skipped); only
when every invocation's arguments parse does the turn run them all, failures
inside execution being returned as ordinary per-invocation results. -/
theorem tool_call_loop_error_semantics {A R : Type}
    (parseArgs : String → Option A) (exec : String → A → R) :
    (∀ pre c post, (∀ d ∈ pre, (parseArgs d.argumentsRaw).isSome = true) →
      parseArgs c.argumentsRaw = none →
      runToolCalls parseArgs exec (pre ++ c :: post)
        = .error ("Unparsable tool arguments: " ++ c.argumentsRaw)) ∧
    (∀ calls, (∀ c ∈ calls, (parseArgs c.argumentsRaw).isSome = true) →
      ∃ rs, runToolCalls parseArgs exec calls = .ok rs ∧ rs.length = calls.length) := by
  constructor
  · intro pre
    induction pre with
    | nil =>
      intro c post _ hc
      rw [List.nil_append, runToolCalls, hc]
    | cons d rest ih =>
      intro c post hpre hc
      obtain ⟨a, ha⟩ := Option.isSome_iff_exists.mp (hpre d (List.mem_cons_self _ _))
      rw [List.cons_append, runToolCalls, ha,
        ih c post (fun d' hd' => hpre d' (List.mem_cons_of_mem _ hd')) hc]
  · intro calls
    induction calls with
    | nil =>
      intro _
      exact ⟨[], rfl, rfl⟩
    | cons c rest ih =>
      intro hall
      obtain ⟨a, ha⟩ := Option.isSome_iff_exists.mp (hall c (List.mem_cons_self _ _))
      obtain ⟨rs, hrs, hlen⟩ := ih (fun d hd => hall d (List.mem_cons_of_mem _ hd))
      refine ⟨exec c.name a :: rs, ?_, by simp [hlen]⟩
      rw [runToolCalls, ha, hrs]

/-- Witness for the amended C4: a malformed head aborts, while an
all-well-formed turn yields one result per invocation. -/
theorem tool_call_loop_error_semantics_witness :
    runToolCalls parseC4 execC4 ([] ++ ⟨"add_node", "not json"⟩
        :: [(⟨"delete_node", "null"⟩ : ToolCall)])
      = .error "Unparsable tool arguments: not json" ∧
    ∃ rs, runToolCalls parseC4 execC4
        [(⟨"get_workflow_structure", "null"⟩ : ToolCall)] = .ok rs ∧ rs.length = 1 :=
  ⟨(tool_call_loop_error_semantics parseC4 execC4).1 []
      ⟨"add_node", "not json"⟩ [⟨"delete_node", "null"⟩] (by simp) (by rfl),
   (tool_call_loop_error_semantics parseC4 execC4).2
      [⟨"get_workflow_structure", "null"⟩] (by decide)⟩

/-! ## The auto-save tail of workflow_edit_chat (workflow_chat.py:1454-1509) -/

/-- The value of one field of the engine update payload. -/
inductive FieldVal
  | str (s : String)
  | nodeList (ns : List Node)
  | connTable (c : Connections)
  | settings (s : List (String × String))
deriving DecidableEq, Repr

/-- The mutated `n8n_workflow_data` as read by the auto-save code. -/
structure N8nData where
  name : Option String
  nodes : Option (List Node)
  connections : Option Connections
  settingsData : Option (List (String × String))
  staticData : Option String
deriving DecidableEq, Repr

/-- The engine update payload (workflow_chat.py:1476-1485): only the fields
n8n accepts for update — name, nodes, connections, settings (defaulting to
the empty object) and staticData — with `None` values removed. -/
def n8nUpdatePayload (wf : N8nData) : List (String × FieldVal) :=
  let raw : List (String × Option FieldVal) :=
    [("name", wf.name.map .str),
     ("nodes", wf.nodes.map .nodeList),
     ("connections", wf.connections.map .connTable),
     ("settings", some (.settings (wf.settingsData.getD []))),
     ("staticData", wf.staticData.map .str)]
  raw.filterMap (fun p => p.2.map (fun v => (p.1, v)))

/-- Outcome of the `requests.put` engine update. -/
inductive PushResult
  | ok
  | httpStatus (code : Nat)
  | exn (msg : String)
deriving DecidableEq, Repr

/-- One externally visible effect of the auto-save block. -/
inductive SaveEffect
  | enginePut (workflowId : String) (payload : List (String × FieldVal))
      (result : PushResult)
  | dbUpdate (data : N8nData)
deriving DecidableEq, Repr

/-- The auto-save tail (workflow_chat.py:1454-1509), as the ordered trace of
its external effects.  When `_modified` is set: if an engine workflow id
exists, attempt the engine update — the `except` block only logs an
exception and a non-200 status is only printed (workflow_chat.py:1489-1502),
neither re-raises — then unconditionally write the mutated graph to the
database mirror (workflow_chat.py:1504-1508). -/
def autoSaveTrace (modified : Bool) (n8nWorkflowId : Option String)
    (push : PushResult) (wf : N8nData) : List SaveEffect :=
  if modified then
    (match n8nWorkflowId with
     | some wid => [SaveEffect.enginePut wid (n8nUpdatePayload wf) push]
     | none => []) ++ [SaveEffect.dbUpdate wf]
  else []

/-- C9: on a dirty working copy, whatever the engine push outcome — success,
error status, or exception — the database mirror is written with the mutated
graph, as the last effect of the turn; an engine failure never prevents the
storage write and nothing is rolled back. -/
theorem engine_push_failure_never_blocks_db_write
    (engineId : Option String) (push : PushResult) (wf : N8nData) :
    SaveEffect.dbUpdate wf ∈ autoSaveTrace true engineId push wf ∧
    (autoSaveTrace true engineId push wf).getLast? = some (SaveEffect.dbUpdate wf) := by
  cases engineId with
  | none => simp [autoSaveTrace]
  | some wid => simp [autoSaveTrace]

/-! ## get_workflow_connections (workflow_chat.py:982-1053) -/

/-- The response of `get_workflow_connections`. -/
structure ConnectionsReport where
  connections : List (String × String × String)
  disconnectedNodes : List String
  allNodes : List String
  brokenConnections : List String
deriving DecidableEq, Repr

/-- Resolve one reference the way workflow_chat.py:998-1023 does: first as an
id (via `id_to_name`), then as a name (via `name_to_id`), else skip.
Returns the (id, name) pair. -/
def resolveRef (idToName nameToId : List (String × String)) (key : String) :
    Option (String × String) :=
  match dlookup key idToName with
  | some nm => some (key, nm)
  | none =>
    match dlookup key nameToId with
    | some i => some (i, key)
    | none => none

/-- `get_workflow_connections` (workflow_chat.py:982-1053): resolved
from→to name pairs (edges with an unresolvable source or target are
skipped), disconnected nodes (those whose id never appears on a resolved
edge; Python iterates a set — node order is used here), and the
broken-connections list built from the resolved pairs whose target name is
not a current node name. -/
def getWorkflowConnections (g : Graph) : ConnectionsReport :=
  let nodes := g.nodes
  let idToName := nodes.foldl (fun d n => dinsert n.id n.name d) []
  let nameToId := nodes.foldl (fun d n => dinsert n.name n.id d) []
  let step := fun (acc : List (String × String × String) × List String)
      (p : String × ConnData) =>
    match resolveRef idToName nameToId p.1 with
    | none => acc
    | some (sid, sname) =>
      p.2.foldl (fun acc tg =>
        tg.2.foldl (fun acc gr =>
          gr.foldl (fun acc c =>
            match resolveRef idToName nameToId c.node with
            | none => acc
            | some (tid, tname) =>
              (acc.1 ++ [(sname, tname, tg.1)], acc.2 ++ [sid, tid])) acc) acc) acc
  let resolved := g.connections.foldl step ([], [])
  let allNames := nodes.map Node.name
  { connections := resolved.1,
    disconnectedNodes :=
      ((nodes.map Node.id).filter (fun i => i ∉ resolved.2)).map
        (fun i => dgetD i i idToName),
    allNodes := allNames,
    brokenConnections := resolved.1.filterMap (fun c =>
      if c.2.1 ∈ allNames then none
      else some (c.1 ++ " -> " ++ c.2.1 ++ " (target node does not exist)")) }

def wGraphC7 : Graph :=
  { nodes := [wNodeA],
    connections := [("A", [("main", [[⟨"Ghost", "main", 0⟩]])])] }

/-- C7: the broken-connections report misses dangling edges.  On a graph
whose only edge targets the nonexistent node "Ghost", the report's
`broken_connections` (and even its resolved pair list) is empty, because the
loop that builds `connection_list` already skipped every edge whose target
does not resolve — so the later `broken_connections` scan over
`connection_list` can never see one. -/
theorem broken_connections_report_misses_dangling_edge :
    (getWorkflowConnections wGraphC7).brokenConnections = [] ∧
    (getWorkflowConnections wGraphC7).connections = [] ∧
    (∃ p ∈ wGraphC7.connections, ∃ tg ∈ p.2, ∃ gr ∈ tg.2, ∃ c ∈ gr,
      resolves wGraphC7.nodes c.node = false) := by
  refine ⟨by rfl, by rfl, ?_⟩
  decide

/-- Witness for C6 at a concrete graph: the repair pass is a fixed point and
leaves no empty entry. -/
theorem validate_and_fix_fixed_point_witness :
    validateAndFixConnections wGraphC2.nodes
        (validateAndFixConnections wGraphC2.nodes wGraphC2.connections)
      = validateAndFixConnections wGraphC2.nodes wGraphC2.connections ∧
    (("A", [("main", [[(⟨"B", "main", 0⟩ : Conn)]])]) : String × ConnData).2 ≠ [] :=
  ⟨(validate_and_fix_fixed_point wGraphC2.nodes wGraphC2.connections).1,
   ((validate_and_fix_fixed_point wGraphC2.nodes wGraphC2.connections).2
      ("A", [("main", [[⟨"B", "main", 0⟩]])]) (by decide)).1⟩
